import Mathlib

/-!
# Verification of the file-processing subsystem

Shallow embedding of the asynchronous job-processing subsystem of the
repository (a BullMQ-backed file processor: `src/services/fileProcessor.js`,
the upload route in `src/routes/files.js`), together with proofs of the
spec's claims about it.

Bytes are modelled as natural numbers below 256; machine 32-bit words as
naturals reduced modulo `2 ^ 32`.
-/

namespace FileProc

/-! ## SHA-256 (the digest the code computes via `createHash('sha256')`)

`processFile` calls Node's `crypto.createHash('sha256')`; we embed the
standard FIPS 180-4 SHA-256 algorithm over byte lists, and validate it on
the published "hello world" test vector. -/

/-- `2 ^ 32`, the modulus of 32-bit words. -/
def M32 : Nat := 4294967296

/-- 32-bit addition. -/
def add32 (a b : Nat) : Nat := (a + b) % M32

/-- Rotate a 32-bit word right by `n`. -/
def rotr32 (n x : Nat) : Nat := ((x >>> n) ||| (x <<< (32 - n))) % M32

/-- SHA-256 small sigma 0. -/
def ssig0 (x : Nat) : Nat := (rotr32 7 x) ^^^ (rotr32 18 x) ^^^ (x >>> 3)

/-- SHA-256 small sigma 1. -/
def ssig1 (x : Nat) : Nat := (rotr32 17 x) ^^^ (rotr32 19 x) ^^^ (x >>> 10)

/-- SHA-256 big sigma 0. -/
def bsig0 (x : Nat) : Nat := (rotr32 2 x) ^^^ (rotr32 13 x) ^^^ (rotr32 22 x)

/-- SHA-256 big sigma 1. -/
def bsig1 (x : Nat) : Nat := (rotr32 6 x) ^^^ (rotr32 11 x) ^^^ (rotr32 25 x)

/-- SHA-256 choice function. -/
def ch (x y z : Nat) : Nat := (x &&& y) ^^^ ((x ^^^ 4294967295) &&& z)

/-- SHA-256 majority function. -/
def maj (x y z : Nat) : Nat := (x &&& y) ^^^ (x &&& z) ^^^ (y &&& z)

/-- The 64 SHA-256 round constants, written in decimal. -/
def K : List Nat :=
  [1116352408, 1899447441, 3049323471, 3921009573, 961987163,
   1508970993, 2453635748, 2870763221, 3624381080, 310598401,
   607225278, 1426881987, 1925078388, 2162078206, 2614888103,
   3248222580, 3835390401, 4022224774, 264347078, 604807628,
   770255983, 1249150122, 1555081692, 1996064986, 2554220882,
   2821834349, 2952996808, 3210313671, 3336571891, 3584528711,
   113926993, 338241895, 666307205, 773529912, 1294757372,
   1396182291, 1695183700, 1986661051, 2177026350, 2456956037,
   2730485921, 2820302411, 3259730800, 3345764771, 3516065817,
   3600352804, 4094571909, 275423344, 430227734, 506948616,
   659060556, 883997877, 958139571, 1322822218, 1537002063,
   1747873779, 1955562222, 2024104815, 2227730452, 2361852424,
   2428436474, 2756734187, 3204031479, 3329325298]

/-- The eight SHA-256 working variables. -/
structure Hash8 where
  a : Nat
  b : Nat
  c : Nat
  d : Nat
  e : Nat
  f : Nat
  g : Nat
  h : Nat
  deriving Repr, DecidableEq

/-- The SHA-256 initial hash value, written in decimal. -/
def initH : Hash8 :=
  ⟨1779033703, 3144134277, 1013904242, 2773480762,
   1359893119, 2600822924, 528734635, 1541459225⟩

/-- Big-endian byte expansion of `x` into `n` bytes. -/
def beBytes : Nat → Nat → List Nat
  | 0, _ => []
  | n + 1, x => beBytes n (x / 256) ++ [x % 256]

/-- SHA-256 padding: append `0x80`, zero bytes, and the 64-bit big-endian
bit length so the total length is a multiple of 64 bytes. -/
def padMessage (msg : List Nat) : List Nat :=
  let z := (119 - msg.length % 64) % 64
  msg ++ [0x80] ++ List.replicate z 0 ++ beBytes 8 (8 * msg.length)

/-- Group bytes into big-endian 32-bit words. -/
def bytesToWords : List Nat → List Nat
  | a :: b :: c :: d :: rest =>
      (a * 16777216 + b * 65536 + c * 256 + d) :: bytesToWords rest
  | _ => []

/-- One step of the SHA-256 message-schedule extension. -/
def scheduleStep (w : Array Nat) : Array Nat :=
  let i := w.size
  w.push ((w.getD (i - 16) 0 + ssig0 (w.getD (i - 15) 0) +
           w.getD (i - 7) 0 + ssig1 (w.getD (i - 2) 0)) % M32)

/-- The 64-entry message schedule of one block. -/
def schedule (block : List Nat) : List Nat :=
  (scheduleStep^[48] block.toArray).toList

/-- One SHA-256 compression round, consuming a pair of round constant and
schedule word. -/
def compressRound (st : Hash8) (kw : Nat × Nat) : Hash8 :=
  let t1 := (st.h + bsig1 st.e + ch st.e st.f st.g + kw.1 + kw.2) % M32
  let t2 := (bsig0 st.a + maj st.a st.b st.c) % M32
  ⟨(t1 + t2) % M32, st.a, st.b, st.c, (st.d + t1) % M32, st.e, st.f, st.g⟩

/-- Process one 64-byte block into the running hash. -/
def processBlock (h0 : Hash8) (block : List Nat) : Hash8 :=
  let st := (K.zip (schedule (bytesToWords block))).foldl compressRound h0
  ⟨add32 h0.a st.a, add32 h0.b st.b, add32 h0.c st.c, add32 h0.d st.d,
   add32 h0.e st.e, add32 h0.f st.f, add32 h0.g st.g, add32 h0.h st.h⟩

/-- Take `n` chunks of 64 bytes off the front of a list. -/
def chunksAux : Nat → List Nat → List (List Nat)
  | 0, _ => []
  | n + 1, l => l.take 64 :: chunksAux n (l.drop 64)

/-- Split a list whose length is a multiple of 64 into 64-byte chunks. -/
def chunks64 (l : List Nat) : List (List Nat) :=
  chunksAux (l.length / 64) l

/-- The eight 32-bit words of the SHA-256 digest of a byte list. -/
def sha256Words (msg : List Nat) : List Nat :=
  let hf := (chunks64 (padMessage msg)).foldl processBlock initH
  [hf.a, hf.b, hf.c, hf.d, hf.e, hf.f, hf.g, hf.h]

/-- One lowercase hexadecimal digit. -/
def hexDigit (n : Nat) : Char :=
  if n < 10 then Char.ofNat (48 + n) else Char.ofNat (87 + n)

/-- Eight lowercase hex digits of a 32-bit word, most significant first. -/
def wordToHex (x : Nat) : List Char :=
  (beBytes 4 x).foldr (fun b acc => hexDigit (b / 16) :: hexDigit (b % 16) :: acc) []

/-- The lowercase hex encoding of the SHA-256 digest of a byte list —
mirrors `createHash('sha256').update(content).digest('hex')`. -/
def sha256hex (msg : List Nat) : String :=
  String.mk ((sha256Words msg).foldr (fun w acc => wordToHex w ++ acc) [])

/-- The UTF-8 bytes of the ASCII string "hello world". -/
def helloWorldBytes : List Nat :=
  [104, 101, 108, 108, 111, 32, 119, 111, 114, 108, 100]

/-! ## Item status record (the prisma `file` row, as the worker sees it) -/

/-- The item lifecycle status stored in the `status` column. -/
inductive FileStatus
  | uploaded
  | processing
  | processed
  | failed
  deriving Repr, DecidableEq

/-- The payload `processFile` returns on success:
`{ hash, size, processedAt }` (fileProcessor.js:121-125). Timestamps are
modelled as naturals. -/
structure ProcessResult where
  hash : String
  size : Nat
  processedAt : Nat
  deriving Repr, DecidableEq

/-- What the worker serializes into the single `extractedData` column:
either `JSON.stringify(result)` or `JSON.stringify({ error: message })`. -/
inductive ExtractedData
  | result (r : ProcessResult)
  | error (msg : String)
  deriving Repr, DecidableEq

/-- The fields of the `file` row the worker reads and writes. -/
structure FileRecord where
  status : FileStatus
  extractedData : Option ExtractedData
  deriving Repr, DecidableEq

/-! ## The processing function (fileProcessor.js:113-129)

`fs.readFile filePath` is modelled by its outcome, an
`Except String (List Nat)`: the bytes the locator resolves to, or the I/O
error message. The `setTimeout` simulation delay has no effect on the
result and is omitted; `new Date()` is modelled by a clock argument. -/

/-- `processFile`: read the content, hash it, and return
`{ hash, size, processedAt }`; any error is rethrown wrapped as
`File processing failed: <message>` (fileProcessor.js:127). -/
def processFile (readResult : Except String (List Nat)) (now : Nat) :
    Except String ProcessResult :=
  match readResult with
  | .ok content => .ok ⟨sha256hex content, content.length, now⟩
  | .error msg => .error ("File processing failed: " ++ msg)

/-! ## The worker handler (fileProcessor.js:43-88)

Each `prisma.file.update` call is an unconditional write keyed only on the
record id; a status-only update leaves `extractedData` unchanged. Whether
each update succeeds (and with what error message it rejects) is part of
the environment of a run. -/

/-- `prisma.file.update({ data: { status: 'processing' } })`
(fileProcessor.js:48-51): status-only write, `extractedData` untouched. -/
def setProcessing (rec : FileRecord) : FileRecord :=
  { rec with status := .processing }

/-- `prisma.file.update({ data: { status: 'processed', extractedData:
JSON.stringify(result) } })` (fileProcessor.js:57-63). -/
def setProcessed (r : ProcessResult) (_rec : FileRecord) : FileRecord :=
  ⟨.processed, some (.result r)⟩

/-- `prisma.file.update({ data: { status: 'failed', extractedData:
JSON.stringify({ error: error.message }) } })` (fileProcessor.js:71-77). -/
def setFailed (msg : String) (_rec : FileRecord) : FileRecord :=
  ⟨.failed, some (.error msg)⟩

/-- The environment of one execution attempt: the outcome of the content
read, the clock, and the outcomes of the three possible database writes
(each `.error m` means that `prisma.file.update` rejects with message `m`). -/
structure WorkerEnv where
  readResult : Except String (List Nat)
  now : Nat
  updProcessing : Except String Unit
  updProcessed : Except String Unit
  updFailed : Except String Unit

/-- How one handler invocation ends: return the result (job completed) or
rethrow an error (job attempt failed, message propagated to the queue). -/
inductive HandlerOutcome
  | completed (r : ProcessResult)
  | failed (msg : String)
  deriving Repr, DecidableEq

/-- The observable effects of one handler invocation: the final record, the
outcome, the record states after each successful database write (in
order), and whether a failed-status write failure was swallowed and logged
(fileProcessor.js:78-80). -/
structure HandlerRun where
  record : FileRecord
  outcome : HandlerOutcome
  writes : List FileRecord
  statusWriteFailureLogged : Bool
  deriving Repr, DecidableEq

/-- The catch block (fileProcessor.js:66-83): best-effort write of status
`failed` with the error message; if that write itself rejects, log and
keep going; in either case rethrow the original error. -/
def handleFailure (env : WorkerEnv) (rec : FileRecord) (writes : List FileRecord)
    (msg : String) : HandlerRun :=
  match env.updFailed with
  | .ok _ => ⟨setFailed msg rec, .failed msg, writes ++ [setFailed msg rec], false⟩
  | .error _ => ⟨rec, .failed msg, writes, true⟩

/-- The worker processor function (fileProcessor.js:43-83): mark the record
`processing`, run `processFile`, write the result with status `processed`;
on any error fall into the catch block. -/
def workerHandler (env : WorkerEnv) (rec0 : FileRecord) : HandlerRun :=
  match env.updProcessing with
  | .error m => handleFailure env rec0 [] m
  | .ok _ =>
    let rec1 := setProcessing rec0
    match processFile env.readResult env.now with
    | .error msg => handleFailure env rec1 [rec1] msg
    | .ok r =>
      match env.updProcessed with
      | .error m => handleFailure env rec1 [rec1] m
      | .ok _ => ⟨setProcessed r rec1, .completed r, [rec1, setProcessed r rec1], false⟩

/-! ## Queue-level retry (fileProcessor.js:25-39)

The queue is created with `defaultJobOptions: { attempts: 3, backoff:
{ type: 'exponential', delay: 1000 } }`. The BullMQ retry loop those
options configure re-executes a failed job after a delay of
`delay * 2 ^ (attemptsMade - 1)` until it succeeds or `attempts`
executions have been made. -/

/-- The exponential backoff delay before the retry following the
`attemptsMade`-th failed execution: `1000 * 2 ^ (attemptsMade - 1)` for the
configured base delay 1000. -/
def backoffDelay (base attemptsMade : Nat) : Nat := base * 2 ^ (attemptsMade - 1)

/-- Queue-level terminal state of a job. -/
inductive QueueOutcome
  | completed
  | failed
  deriving Repr, DecidableEq

/-- The observable outcome of running a job to queue-level completion: the
final record, the number of executions made, the delays inserted between
consecutive executions, and the job's terminal queue state. -/
structure JobRun where
  record : FileRecord
  attempts : Nat
  delays : List Nat
  outcome : QueueOutcome
  deriving Repr, DecidableEq

/-- Run a job from attempt index `idx` (0-based) with `fuel` executions
remaining, threading the record through the attempts; `envs i` is the
environment of the `i`-th execution. -/
def runJobFrom (envs : Nat → WorkerEnv) (base : Nat) :
    Nat → Nat → FileRecord → JobRun
  | 0, _, rec => ⟨rec, 0, [], .failed⟩
  | fuel + 1, idx, rec =>
    let run := workerHandler (envs idx) rec
    match run.outcome with
    | .completed _ => ⟨run.record, 1, [], .completed⟩
    | .failed _ =>
      match fuel with
      | 0 => ⟨run.record, 1, [], .failed⟩
      | _ + 1 =>
        let rest := runJobFrom envs base fuel (idx + 1) run.record
        ⟨rest.record, rest.attempts + 1, backoffDelay base (idx + 1) :: rest.delays,
         rest.outcome⟩

/-- The configured maximum number of executions (fileProcessor.js:30). -/
def defaultAttempts : Nat := 3

/-- The configured backoff base delay in milliseconds (fileProcessor.js:33). -/
def defaultBackoffBase : Nat := 1000

/-- Run a job with the queue's configured options: at most 3 executions,
exponential backoff from 1000. -/
def runJob (envs : Nat → WorkerEnv) (rec : FileRecord) : JobRun :=
  runJobFrom envs defaultBackoffBase defaultAttempts 0 rec

/-! ## Worker-pool scheduling

Modelled from the spec: the concurrency-capped executor pool the code
obtains from the BullMQ `Worker` with option `concurrency`
(fileProcessor.js:86) is library behaviour, not repository source. The
spec's worker-pool contract (§4.3, §5): at most `C` jobs execute at once,
idle capacity claims the oldest waiting job, and each claimed job runs to
completion. Jobs are represented by their remaining execution time in
ticks; one `tick` of the pool first fills free executor slots from the
waiting queue in FIFO order, then advances every active job by one tick,
retiring those that finish. -/

/-- The configured concurrency cap (fileProcessor.js:86): 5 outside tests,
1 under test. -/
def configuredConcurrency (isTestEnv : Bool) : Nat := if isTestEnv then 1 else 5

/-- A pool state: the cap, the durations of waiting jobs (FIFO), the
remaining durations of active jobs, and the count of finished jobs. -/
structure PoolState where
  cap : Nat
  waiting : List Nat
  active : List Nat
  done : Nat
  deriving Repr, DecidableEq

/-- Claim waiting jobs into the active set until the cap is reached or no
job is waiting; returns the remainder of the queue and the new active set. -/
def fill (cap : Nat) : List Nat → List Nat → List Nat × List Nat
  | [], a => ([], a)
  | j :: w, a => if a.length < cap then fill cap w (a ++ [j]) else (j :: w, a)

/-- One scheduling round: claim up to the cap, then advance every active
job one tick, retiring finished ones. -/
def tick (st : PoolState) : PoolState :=
  let p := fill st.cap st.waiting st.active
  let a := p.2.map (fun d => d - 1)
  ⟨st.cap, p.1, a.filter (fun d => d != 0),
   st.done + (a.filter (fun d => d == 0)).length⟩

/-- A freshly submitted batch of jobs, none yet claimed. -/
def initPool (cap : Nat) (durations : List Nat) : PoolState :=
  ⟨cap, durations, [], 0⟩

/-! ## Upload route (src/routes/files.js, `router.post('/upload')`)

The handler creates the `file` row with `status: 'uploaded'`, then awaits
`addFileProcessingJob(file.id, req.file.path)`, then responds 201 with
`status: file.status`. The multer/auth plumbing is represented by the
`hasFile` flag; the two awaited effects by their success flags (a rejection
lands in the catch block, which responds 500). -/

/-- The externally visible effects of the upload handler, in order. -/
inductive UploadEvent
  | createRecord (status : FileStatus)
  | enqueueJob
  deriving Repr, DecidableEq

/-- The HTTP response: status code and the `status` field of the JSON body,
when present. -/
structure UploadResponse where
  code : Nat
  statusField : Option FileStatus
  deriving Repr, DecidableEq

/-- The `/files/upload` route handler (files route, lines 142-172): reject
with 400 when no file is attached; create the record in status `uploaded`;
enqueue the processing job; respond 201 reporting the created record's
status. Any rejection falls into the catch block and responds 500. -/
def uploadHandler (hasFile createOk enqueueOk : Bool) :
    List UploadEvent × UploadResponse :=
  if !hasFile then ([], ⟨400, none⟩)
  else if !createOk then ([], ⟨500, none⟩)
  else if !enqueueOk then ([UploadEvent.createRecord .uploaded], ⟨500, none⟩)
  else ([UploadEvent.createRecord .uploaded, UploadEvent.enqueueJob],
        ⟨201, some .uploaded⟩)

/-! ## Module-level singletons (fileProcessor.js:22-39, 41-110, 138-145)

`fileQueue` and `worker` are module-level variables; `initializeQueue` and
`initializeWorker` construct an instance only when the variable is still
unset and otherwise return the existing one. Instances are identified by
the order of their construction. -/

/-- The module-level mutable state: the two optional singleton instances
and a counter supplying fresh instance identities. -/
structure ModuleState where
  fileQueue : Option Nat
  worker : Option Nat
  nextId : Nat
  deriving Repr, DecidableEq

/-- The state of the module when it is first loaded. -/
def freshModule : ModuleState := ⟨none, none, 0⟩

/-- `initializeQueue` (fileProcessor.js:25-39): construct the queue if
absent, then return the module-level instance. -/
def initializeQueue (s : ModuleState) : ModuleState × Nat :=
  match s.fileQueue with
  | some q => (s, q)
  | none => (⟨some s.nextId, s.worker, s.nextId + 1⟩, s.nextId)

/-- `initializeWorker` (fileProcessor.js:41-110): construct the worker if
absent, then return the module-level instance. -/
def initializeWorker (s : ModuleState) : ModuleState × Nat :=
  match s.worker with
  | some w => (s, w)
  | none => (⟨s.fileQueue, some s.nextId, s.nextId + 1⟩, s.nextId)

/-- An entry added to a queue: which queue instance received it and the job
payload `{ fileId, filePath }`. -/
structure JobEntry where
  queueId : Nat
  fileId : Nat
  filePath : String
  deriving Repr, DecidableEq

/-- `addFileProcessingJob` (fileProcessor.js:141-144): obtain the queue via
`initializeQueue` and add the job to it. -/
def addFileProcessingJob (s : ModuleState) (jobs : List JobEntry)
    (fileId : Nat) (filePath : String) : ModuleState × List JobEntry :=
  let p := initializeQueue s
  (p.1, jobs ++ [⟨p.2, fileId, filePath⟩])

/-! ## Concrete scenario data -/

/-- An attempt environment whose content read fails with `ENOENT` and whose
database writes all succeed. -/
def envFailEnoent : WorkerEnv :=
  ⟨.error "ENOENT", 0, .ok (), .ok (), .ok ()⟩

/-- An attempt environment whose content read resolves to the bytes of
"hello world" and whose database writes all succeed. -/
def envOkHello : WorkerEnv :=
  ⟨.ok helloWorldBytes, 1, .ok (), .ok (), .ok ()⟩

/-- A freshly created item record, as the upload route leaves it. -/
def uploadedRec : FileRecord := ⟨.uploaded, none⟩

/-- The record holds a success payload (result present). -/
def hasResult (rec : FileRecord) : Prop :=
  ∃ r, rec.extractedData = some (.result r)

/-- The record holds an error payload (errorInfo present). -/
def hasError (rec : FileRecord) : Prop :=
  ∃ m, rec.extractedData = some (.error m)

/-- The pool invariant: every pending duration is positive and the active
set respects the cap. -/
def PoolInv (st : PoolState) : Prop :=
  (∀ d ∈ st.waiting, 1 ≤ d) ∧ (∀ d ∈ st.active, 1 ≤ d) ∧
  st.active.length ≤ st.cap

/-- The total work remaining in a pool state. -/
def poolMeasure (st : PoolState) : Nat := st.waiting.sum + st.active.sum

/-! # Theorems -/

/-! ## Helper lemmas -/

/-- A message wrapped as `File processing failed: <m>` is never the empty
string. -/
theorem wrapped_message_nonempty (s : String) :
    ("File processing failed: " ++ s) ≠ "" := by
  intro h
  have h2 := congrArg String.length h
  simp [String.length_append] at h2
  exact absurd h2.1 (by decide)

/-- Running a job whose content read fails on every attempt and whose
database writes all succeed: three executions, backoff delays 1000 and
2000, queue-level failure, record left `failed` with the last wrapped
error. -/
theorem runJob_allFail (envs : Nat → WorkerEnv) (msgs : Nat → String)
    (rec : FileRecord)
    (hread : ∀ i, (envs i).readResult = .error (msgs i))
    (hp : ∀ i, (envs i).updProcessing = .ok ())
    (hf : ∀ i, (envs i).updFailed = .ok ()) :
    runJob envs rec =
      ⟨⟨.failed, some (.error ("File processing failed: " ++ msgs 2))⟩, 3,
       [1000, 2000], .failed⟩ := by
  simp [runJob, runJobFrom, workerHandler, handleFailure, processFile, setFailed,
    setProcessing, backoffDelay, defaultAttempts, defaultBackoffBase,
    hread, hp, hf]

/-- A job run given at least one unit of fuel makes at least one execution. -/
theorem runJobFrom_attempts_pos (envs : Nat → WorkerEnv) (base fuel idx : Nat)
    (rec : FileRecord) (h : 1 ≤ fuel) :
    1 ≤ (runJobFrom envs base fuel idx rec).attempts := by
  match fuel, h with
  | fuel + 1, _ =>
    simp only [runJobFrom]
    cases (workerHandler (envs idx) rec).outcome with
    | completed r => simp
    | failed m =>
      cases fuel with
      | zero => simp
      | succ n => simp

/-- Unfolding one failed execution of a job that still has fuel for a
retry: the retry delay is pushed and the attempt counted. -/
theorem runJobFrom_failed_step (envs : Nat → WorkerEnv) (base fuel idx : Nat)
    (rec : FileRecord) (msg : String)
    (h : (workerHandler (envs idx) rec).outcome = .failed msg) :
    runJobFrom envs base (fuel + 2) idx rec =
      ⟨(runJobFrom envs base (fuel + 1) (idx + 1) (workerHandler (envs idx) rec).record).record,
       (runJobFrom envs base (fuel + 1) (idx + 1) (workerHandler (envs idx) rec).record).attempts + 1,
       backoffDelay base (idx + 1) ::
         (runJobFrom envs base (fuel + 1) (idx + 1) (workerHandler (envs idx) rec).record).delays,
       (runJobFrom envs base (fuel + 1) (idx + 1) (workerHandler (envs idx) rec).record).outcome⟩ := by
  conv_lhs => rw [show fuel + 2 = (fuel + 1) + 1 from rfl, runJobFrom]
  rw [h]

/-! ## Claim theorems -/

/-- C1: a successful run of the processing function on a locator resolving
to bytes `B` returns a result whose digest is the hex-encoded SHA-256 of
`B` and whose byte size is `len B`; for the content "hello world" the size
is 11 and the digest is the published SHA-256 test vector. -/
theorem processFile_digest_correct (B : List Nat) (now : Nat) (r : ProcessResult)
    (h : processFile (.ok B) now = .ok r) :
    r.hash = sha256hex B ∧ r.size = B.length ∧
    sha256hex helloWorldBytes =
      "b94d27b9934d3e08a52e52d7da7dabfac484efe37a5380ee9088f7ace2efcde9" ∧
    helloWorldBytes.length = 11 := by
  have h2 : (⟨sha256hex B, B.length, now⟩ : ProcessResult) = r := by
    simpa [processFile] using h
  refine ⟨?_, ?_, by decide, by decide⟩ <;> rw [← h2]

/-- C1 witness: the theorem applied to the "hello world" content. -/
theorem processFile_digest_correct_witness :
    (⟨sha256hex helloWorldBytes, helloWorldBytes.length, 0⟩ : ProcessResult).hash
        = sha256hex helloWorldBytes ∧
    (⟨sha256hex helloWorldBytes, helloWorldBytes.length, 0⟩ : ProcessResult).size
        = helloWorldBytes.length ∧
    sha256hex helloWorldBytes =
      "b94d27b9934d3e08a52e52d7da7dabfac484efe37a5380ee9088f7ace2efcde9" ∧
    helloWorldBytes.length = 11 :=
  processFile_digest_correct helloWorldBytes 0 _ rfl

/-- C7: the digest computation is deterministic and idempotent — two runs of
the processing function on the same content, at any two clock times, agree
on the digest (both equal to the SHA-256 hex of the content) and on the
byte size. -/
theorem digest_deterministic (B : List Nat) (t1 t2 : Nat) (r1 r2 : ProcessResult)
    (h1 : processFile (.ok B) t1 = .ok r1)
    (h2 : processFile (.ok B) t2 = .ok r2) :
    r1.hash = r2.hash ∧ r1.hash = sha256hex B ∧ r1.size = r2.size := by
  have e1 : (⟨sha256hex B, B.length, t1⟩ : ProcessResult) = r1 := by
    simpa [processFile] using h1
  have e2 : (⟨sha256hex B, B.length, t2⟩ : ProcessResult) = r2 := by
    simpa [processFile] using h2
  subst e1
  subst e2
  exact ⟨rfl, rfl, rfl⟩

/-- C7 witness: the theorem applied to the "hello world" content at clock
times 0 and 1. -/
theorem digest_deterministic_witness :
    (⟨sha256hex helloWorldBytes, helloWorldBytes.length, 0⟩ : ProcessResult).hash
      = (⟨sha256hex helloWorldBytes, helloWorldBytes.length, 1⟩ : ProcessResult).hash ∧
    (⟨sha256hex helloWorldBytes, helloWorldBytes.length, 0⟩ : ProcessResult).hash
      = sha256hex helloWorldBytes ∧
    (⟨sha256hex helloWorldBytes, helloWorldBytes.length, 0⟩ : ProcessResult).size
      = (⟨sha256hex helloWorldBytes, helloWorldBytes.length, 1⟩ : ProcessResult).size :=
  digest_deterministic helloWorldBytes 0 1 _ _ rfl rfl

/-- C3: a job whose content locator never resolves (and whose status writes
succeed) is executed exactly `defaultAttempts = 3` times, the retries
separated by the strictly increasing exponential-backoff delays
`backoffDelay 1000 1 = 1000` and `backoffDelay 1000 2 = 2000`; the job is
finalized failed and the item is left in status `failed` holding the last
recorded error. -/
theorem neverResolving_exhausts_attempts (envs : Nat → WorkerEnv)
    (msgs : Nat → String) (rec : FileRecord)
    (hread : ∀ i, (envs i).readResult = .error (msgs i))
    (hp : ∀ i, (envs i).updProcessing = .ok ())
    (hf : ∀ i, (envs i).updFailed = .ok ()) :
    (runJob envs rec).attempts = defaultAttempts ∧
    (runJob envs rec).delays = [backoffDelay 1000 1, backoffDelay 1000 2] ∧
    List.Chain' (· < ·) (runJob envs rec).delays ∧
    (runJob envs rec).outcome = .failed ∧
    (runJob envs rec).record =
      ⟨.failed, some (.error ("File processing failed: " ++ msgs 2))⟩ := by
  rw [runJob_allFail envs msgs rec hread hp hf]
  refine ⟨rfl, rfl, ?_, rfl, rfl⟩
  dsimp only
  exact List.chain'_cons.mpr ⟨by norm_num, List.chain'_singleton 2000⟩

/-- C3 witness: every attempt's read fails with ENOENT. -/
theorem neverResolving_exhausts_attempts_witness :
    (runJob (fun _ => envFailEnoent) uploadedRec).attempts = defaultAttempts ∧
    (runJob (fun _ => envFailEnoent) uploadedRec).delays =
      [backoffDelay 1000 1, backoffDelay 1000 2] ∧
    List.Chain' (· < ·) (runJob (fun _ => envFailEnoent) uploadedRec).delays ∧
    (runJob (fun _ => envFailEnoent) uploadedRec).outcome = .failed ∧
    (runJob (fun _ => envFailEnoent) uploadedRec).record =
      ⟨.failed, some (.error ("File processing failed: " ++ "ENOENT"))⟩ :=
  neverResolving_exhausts_attempts (fun _ => envFailEnoent) (fun _ => "ENOENT")
    uploadedRec (fun _ => rfl) (fun _ => rfl) (fun _ => rfl)

/-- C8: when the content cannot be read, the processing function fails with
the wrapped content-unavailable error, whose message is non-empty; and the
errorInfo recorded after the final attempt of a job whose locator never
resolves carries that non-empty message. -/
theorem contentUnavailable_nonempty (envs : Nat → WorkerEnv)
    (msgs : Nat → String) (rec : FileRecord) (now : Nat)
    (hread : ∀ i, (envs i).readResult = .error (msgs i))
    (hp : ∀ i, (envs i).updProcessing = .ok ())
    (hf : ∀ i, (envs i).updFailed = .ok ()) :
    (∀ i, processFile (envs i).readResult now =
        .error ("File processing failed: " ++ msgs i) ∧
      ("File processing failed: " ++ msgs i) ≠ "") ∧
    (runJob envs rec).record.status = .failed ∧
    (runJob envs rec).record.extractedData =
      some (.error ("File processing failed: " ++ msgs 2)) ∧
    ("File processing failed: " ++ msgs 2) ≠ "" := by
  refine ⟨fun i => ⟨?_, wrapped_message_nonempty (msgs i)⟩, ?_, ?_,
    wrapped_message_nonempty (msgs 2)⟩
  · rw [hread i]; rfl
  · rw [runJob_allFail envs msgs rec hread hp hf]
  · rw [runJob_allFail envs msgs rec hread hp hf]

/-- C8 witness: every attempt's read fails with ENOENT. -/
theorem contentUnavailable_nonempty_witness :
    processFile envFailEnoent.readResult 0 =
      .error ("File processing failed: " ++ "ENOENT") ∧
    ("File processing failed: " ++ "ENOENT") ≠ "" ∧
    (runJob (fun _ => envFailEnoent) uploadedRec).record.status = .failed :=
  let h := contentUnavailable_nonempty (fun _ => envFailEnoent)
    (fun _ => "ENOENT") uploadedRec 0 (fun _ => rfl) (fun _ => rfl) (fun _ => rfl)
  ⟨(h.1 0).1, (h.1 0).2, h.2.1⟩

/-- C2 counterexample: the item reaches the terminal status `failed` after a
failed attempt, and a subsequent attempt's completion changes it to
`processed` — the worker's writes are not fenced on the status still being
`processing`. -/
theorem terminal_overwritten_counterexample :
    (workerHandler envFailEnoent uploadedRec).record.status = FileStatus.failed ∧
    (workerHandler envOkHello
        (workerHandler envFailEnoent uploadedRec).record).record.status =
      FileStatus.processed ∧
    FileStatus.processed ≠ FileStatus.failed := by
  decide

/-- C2 amended: the worker's item writes are unconditional — keyed only on
the record id, never fenced by attempt number or conditioned on the current
status — so (when its own writes succeed) an attempt drives the record to
the same final state whatever the record held before, including a terminal
status. -/
theorem worker_writes_unfenced (env : WorkerEnv) (rec rec' : FileRecord)
    (hp : env.updProcessing = Except.ok ())
    (hs : env.updProcessed = Except.ok ())
    (hf : env.updFailed = Except.ok ()) :
    (workerHandler env rec).record = (workerHandler env rec').record := by
  cases hpr : processFile env.readResult env.now with
  | ok r => simp [workerHandler, hp, hpr, hs, setProcessed]
  | error m => simp [workerHandler, handleFailure, hp, hpr, hf, setFailed]

/-- C2 amended witness: a successful attempt overwrites a terminal `failed`
record exactly as it would a fresh `uploaded` one. -/
theorem worker_writes_unfenced_witness :
    (workerHandler envOkHello
        ⟨.failed, some (.error "File processing failed: ENOENT")⟩).record =
    (workerHandler envOkHello uploadedRec).record :=
  worker_writes_unfenced envOkHello _ _ rfl rfl rfl

/-- C5 counterexample: during the retry following a failed attempt, the
record is written `processing` while still holding the previous attempt's
errorInfo payload — the payload is not cleared by the status-only
`processing` write. -/
theorem processing_payload_counterexample :
    (workerHandler envOkHello
        (workerHandler envFailEnoent uploadedRec).record).writes.head? =
      some ⟨.processing, some (.error "File processing failed: ENOENT")⟩ ∧
    (⟨FileStatus.processing,
      some (.error "File processing failed: ENOENT")⟩ : FileRecord).extractedData
      ≠ none := by
  decide

/-- C5 amended: the two payloads are mutually exclusive at every instant
(the record stores at most one of result/errorInfo), and once an attempt
whose writes succeed leaves the record in a terminal status exactly the
matching payload is present; but the `processing` write carries no payload
and also clears none, so the previous attempt's errorInfo persists while a
retry is `processing` — no payload is present during `processing` only when
none was present before the attempt. -/
theorem payload_exclusivity_amended (env : WorkerEnv) (rec0 : FileRecord)
    (hp : env.updProcessing = Except.ok ())
    (hs : env.updProcessed = Except.ok ())
    (hf : env.updFailed = Except.ok ()) :
    (∀ rec : FileRecord, ¬(hasResult rec ∧ hasError rec)) ∧
    ((workerHandler env rec0).record.status = .processed →
      hasResult (workerHandler env rec0).record ∧
      ¬ hasError (workerHandler env rec0).record) ∧
    ((workerHandler env rec0).record.status = .failed →
      hasError (workerHandler env rec0).record ∧
      ¬ hasResult (workerHandler env rec0).record) ∧
    (workerHandler env rec0).writes.head? = some (setProcessing rec0) ∧
    (setProcessing rec0).extractedData = rec0.extractedData := by
  refine ⟨?_, ?_, ?_, ?_, rfl⟩
  · rintro rec ⟨⟨r, h1⟩, ⟨m, h2⟩⟩
    rw [h1] at h2
    simp at h2
  · intro hst
    cases hpr : processFile env.readResult env.now with
    | ok r =>
      simp only [workerHandler, hp, hpr, hs, setProcessed, hasResult, hasError]
      exact ⟨⟨r, rfl⟩, by rintro ⟨m, hm⟩; simp at hm⟩
    | error m =>
      simp only [workerHandler, handleFailure, hp, hpr, hf, setFailed] at hst
      simp at hst
  · intro hst
    cases hpr : processFile env.readResult env.now with
    | ok r =>
      simp only [workerHandler, hp, hpr, hs, setProcessed] at hst
      simp at hst
    | error m =>
      simp only [workerHandler, handleFailure, hp, hpr, hf, setFailed,
        hasResult, hasError]
      exact ⟨⟨_, rfl⟩, by rintro ⟨r, hr⟩; simp at hr⟩
  · cases hpr : processFile env.readResult env.now with
    | ok r => simp [workerHandler, hp, hpr, hs]
    | error m => simp [workerHandler, handleFailure, hp, hpr, hf]

/-- C5 amended witness: the first write of a successful attempt on a fresh
`uploaded` record is the payload-free `processing` record. -/
theorem payload_exclusivity_amended_witness :
    (workerHandler envOkHello uploadedRec).writes.head? =
      some (setProcessing uploadedRec) ∧
    (setProcessing uploadedRec).extractedData = uploadedRec.extractedData :=
  ⟨(payload_exclusivity_amended envOkHello uploadedRec rfl rfl rfl).2.2.2.1,
   (payload_exclusivity_amended envOkHello uploadedRec rfl rfl rfl).2.2.2.2⟩

/-- C6: on a processing failure the worker first performs the best-effort
`failed` status write and then propagates the original error to the retry
decision; if that write itself fails the failure is only logged, the
original error still propagates, and the executor stays available — the
job's next attempt still runs. -/
theorem failure_write_then_propagate (env : WorkerEnv) (rec0 : FileRecord)
    (msg : String)
    (hp : env.updProcessing = Except.ok ())
    (hfail : processFile env.readResult env.now = .error msg) :
    ((workerHandler env rec0).outcome = .failed msg) ∧
    (env.updFailed = Except.ok () →
      (workerHandler env rec0).writes =
        [setProcessing rec0, setFailed msg (setProcessing rec0)] ∧
      (workerHandler env rec0).statusWriteFailureLogged = false) ∧
    (∀ e, env.updFailed = Except.error e →
      (workerHandler env rec0).writes = [setProcessing rec0] ∧
      (workerHandler env rec0).statusWriteFailureLogged = true ∧
      (workerHandler env rec0).outcome = .failed msg) ∧
    (∀ envs : Nat → WorkerEnv, envs 0 = env →
      2 ≤ (runJob envs rec0).attempts) := by
  have houtcome : (workerHandler env rec0).outcome = .failed msg := by
    simp only [workerHandler, hp, hfail, handleFailure]
    cases env.updFailed <;> simp
  refine ⟨houtcome, ?_, ?_, ?_⟩
  · intro hF
    constructor <;> simp [workerHandler, handleFailure, hp, hfail, hF]
  · intro e hF
    refine ⟨?_, ?_, houtcome⟩ <;>
      simp [workerHandler, handleFailure, hp, hfail, hF]
  · intro envs h0
    have h1 : (workerHandler (envs 0) rec0).outcome = HandlerOutcome.failed msg := by
      rw [h0]; exact houtcome
    have e := runJobFrom_failed_step envs 1000 1 0 rec0 msg h1
    have h2 := runJobFrom_attempts_pos envs 1000 2 1
      (workerHandler (envs 0) rec0).record (by omega)
    simp only [runJob, defaultAttempts, defaultBackoffBase]
    rw [show (3 : Nat) = 1 + 2 from rfl, e]
    dsimp only
    simp only [show (1 : Nat) + 1 = 2 from rfl, show (0 : Nat) + 1 = 1 from rfl]
    omega

/-- C6 witness: an attempt whose read fails with ENOENT and whose failed
status write succeeds, and one whose failed status write itself rejects. -/
theorem failure_write_then_propagate_witness :
    ((workerHandler envFailEnoent uploadedRec).outcome =
      .failed ("File processing failed: " ++ "ENOENT")) ∧
    ((workerHandler envFailEnoent uploadedRec).writes =
      [setProcessing uploadedRec,
       setFailed ("File processing failed: " ++ "ENOENT") (setProcessing uploadedRec)]) ∧
    2 ≤ (runJob (fun _ => envFailEnoent) uploadedRec).attempts :=
  let h := failure_write_then_propagate envFailEnoent uploadedRec
    ("File processing failed: " ++ "ENOENT") rfl rfl
  ⟨h.1, (h.2.1 rfl).1, h.2.2.2 (fun _ => envFailEnoent) rfl⟩

/-- C9: on the successful path the upload route creates the item record in
status `uploaded` strictly before the processing job is enqueued, and the
201 response reports that initial `uploaded` status; in every run of the
handler, any enqueue event is preceded by the creation of the record in
status `uploaded`. -/
theorem upload_creates_before_enqueue (hasFile createOk enqueueOk : Bool) :
    ((uploadHandler hasFile createOk enqueueOk).2.code = 201 →
      (uploadHandler hasFile createOk enqueueOk).1 =
        [UploadEvent.createRecord .uploaded, UploadEvent.enqueueJob] ∧
      (uploadHandler hasFile createOk enqueueOk).2.statusField = some .uploaded) ∧
    (UploadEvent.enqueueJob ∈ (uploadHandler hasFile createOk enqueueOk).1 →
      (uploadHandler hasFile createOk enqueueOk).1 =
        [UploadEvent.createRecord .uploaded, UploadEvent.enqueueJob]) := by
  cases hasFile <;> cases createOk <;> cases enqueueOk <;>
    simp [uploadHandler]

/-- C9 witness: the fully successful upload request. -/
theorem upload_creates_before_enqueue_witness :
    (uploadHandler true true true).1 =
      [UploadEvent.createRecord .uploaded, UploadEvent.enqueueJob] ∧
    (uploadHandler true true true).2.statusField = some .uploaded :=
  (upload_creates_before_enqueue true true true).1 rfl

/-- C10: queue and worker construction are idempotent module-level
singletons — calling either constructor again returns the same instance and
leaves the module state unchanged — and a job submitted through
`addFileProcessingJob` once the queue exists is appended to that same
single queue instance without changing the module state. -/
theorem singletons_idempotent (s : ModuleState) (jobs : List JobEntry)
    (fileId : Nat) (filePath : String) :
    (initializeQueue (initializeQueue s).1).2 = (initializeQueue s).2 ∧
    (initializeQueue (initializeQueue s).1).1 = (initializeQueue s).1 ∧
    (initializeWorker (initializeWorker s).1).2 = (initializeWorker s).2 ∧
    (initializeWorker (initializeWorker s).1).1 = (initializeWorker s).1 ∧
    addFileProcessingJob (initializeQueue s).1 jobs fileId filePath =
      ((initializeQueue s).1,
       jobs ++ [⟨(initializeQueue s).2, fileId, filePath⟩]) := by
  cases hq : s.fileQueue <;> cases hw : s.worker <;>
    simp [initializeQueue, initializeWorker, addFileProcessingJob, hq, hw]

/-! ## Worker-pool lemmas (C4) -/

theorem fill_length_le (cap : Nat) (w a : List Nat) (h : a.length ≤ cap) :
    (fill cap w a).2.length ≤ cap := by
  induction w generalizing a with
  | nil => simpa [fill] using h
  | cons j w ih =>
    by_cases hlt : a.length < cap
    · simp only [fill, hlt, if_true]
      exact ih (a ++ [j]) (by simp; omega)
    · simpa [fill, hlt] using h

theorem fill_length_ge (cap : Nat) (w a : List Nat) :
    a.length ≤ (fill cap w a).2.length := by
  induction w generalizing a with
  | nil => simp [fill]
  | cons j w ih =>
    by_cases hlt : a.length < cap
    · simp only [fill, hlt, if_true]
      have := ih (a ++ [j])
      simp at this
      omega
    · simp [fill, hlt]

theorem fill_conserve_len (cap : Nat) (w a : List Nat) :
    (fill cap w a).1.length + (fill cap w a).2.length = w.length + a.length := by
  induction w generalizing a with
  | nil => simp [fill]
  | cons j w ih =>
    by_cases hlt : a.length < cap
    · simp only [fill, hlt, if_true]
      have := ih (a ++ [j])
      simp at this ⊢
      omega
    · simp [fill, hlt]

theorem fill_sum (cap : Nat) (w a : List Nat) :
    (fill cap w a).1.sum + (fill cap w a).2.sum = w.sum + a.sum := by
  induction w generalizing a with
  | nil => simp [fill]
  | cons j w ih =>
    by_cases hlt : a.length < cap
    · simp only [fill, hlt, if_true]
      have := ih (a ++ [j])
      simp [List.sum_append] at this ⊢
      omega
    · simp [fill, hlt]

theorem fill_mem_waiting (cap : Nat) (w a : List Nat) (d : Nat)
    (h : d ∈ (fill cap w a).1) : d ∈ w := by
  induction w generalizing a with
  | nil => simp [fill] at h
  | cons j w ih =>
    by_cases hlt : a.length < cap
    · simp only [fill, hlt, if_true] at h
      exact List.mem_cons_of_mem j (ih (a ++ [j]) h)
    · simpa [fill, hlt] using h

theorem fill_mem_active (cap : Nat) (w a : List Nat) (d : Nat)
    (h : d ∈ (fill cap w a).2) : d ∈ a ∨ d ∈ w := by
  induction w generalizing a with
  | nil =>
    simp [fill] at h
    exact Or.inl h
  | cons j w ih =>
    by_cases hlt : a.length < cap
    · simp only [fill, hlt, if_true] at h
      rcases ih (a ++ [j]) h with h2 | h2
      · rcases List.mem_append.mp h2 with h3 | h3
        · exact Or.inl h3
        · simp at h3
          exact Or.inr (by rw [h3]; exact List.mem_cons_self j w)
      · exact Or.inr (List.mem_cons_of_mem j h2)
    · simp only [fill, hlt, if_false] at h
      exact Or.inl h

theorem fill_pos (cap : Nat) (w a : List Nat) (hcap : 1 ≤ cap)
    (h : w ≠ [] ∨ a ≠ []) : 1 ≤ (fill cap w a).2.length := by
  rcases h with h | h
  · cases w with
    | nil => exact absurd rfl h
    | cons j w =>
      by_cases hlt : a.length < cap
      · simp only [fill, hlt, if_true]
        have := fill_length_ge cap w (a ++ [j])
        simp at this
        omega
      · simp only [fill, hlt, if_false]
        omega
  · have h1 := fill_length_ge cap w a
    have h2 : 0 < a.length := List.length_pos.mpr h
    omega

theorem filter_zero_split (l : List Nat) :
    ((l.filter (fun d => d != 0)).length + (l.filter (fun d => d == 0)).length)
      = l.length := by
  induction l with
  | nil => simp
  | cons x l ih =>
    rcases Nat.eq_zero_or_pos x with hx | hx
    · subst hx
      simp only [List.filter_cons]
      norm_num
      omega
    · have hx0 : x ≠ 0 := by omega
      simp only [List.filter_cons]
      simp [hx0]
      omega

theorem filter_nonzero_sum (l : List Nat) :
    (l.filter (fun d => d != 0)).sum = l.sum := by
  induction l with
  | nil => simp
  | cons x l ih =>
    rcases Nat.eq_zero_or_pos x with hx | hx
    · subst hx
      simp only [List.filter_cons]
      simpa using ih
    · have hx0 : x ≠ 0 := by omega
      simp only [List.filter_cons]
      simp [hx0, ih]

theorem sum_map_sub_one (l : List Nat) (h : ∀ d ∈ l, 1 ≤ d) :
    (l.map (fun d => d - 1)).sum + l.length = l.sum := by
  induction l with
  | nil => simp
  | cons x l ih =>
    have hx := h x (List.mem_cons_self x l)
    have := ih (fun d hd => h d (List.mem_cons_of_mem _ hd))
    simp [List.sum_cons]
    omega

theorem tick_inv (st : PoolState) (h : PoolInv st) : PoolInv (tick st) := by
  obtain ⟨hw, ha, hc⟩ := h
  refine ⟨?_, ?_, ?_⟩
  · intro d hd
    exact hw d (fill_mem_waiting st.cap st.waiting st.active d hd)
  · intro d hd
    simp only [tick, List.mem_filter] at hd
    have := hd.2
    simp at this
    omega
  · show (tick st).active.length ≤ st.cap
    have h1 : (List.filter (fun d => d != 0)
          (List.map (fun d => d - 1) (fill st.cap st.waiting st.active).2)).length
        ≤ (List.map (fun d => d - 1) (fill st.cap st.waiting st.active).2).length :=
      List.length_filter_le _ _
    have h2 : (List.map (fun d => d - 1) (fill st.cap st.waiting st.active).2).length
        = (fill st.cap st.waiting st.active).2.length := by simp
    have h3 := fill_length_le st.cap st.waiting st.active hc
    simp only [tick]
    omega

theorem tick_cap_eq (st : PoolState) : (tick st).cap = st.cap := rfl

theorem tick_count (st : PoolState) :
    (tick st).waiting.length + (tick st).active.length + (tick st).done =
      st.waiting.length + st.active.length + st.done := by
  have hc := fill_conserve_len st.cap st.waiting st.active
  have hs := filter_zero_split
    (List.map (fun d => d - 1) (fill st.cap st.waiting st.active).2)
  have hm : (List.map (fun d => d - 1) (fill st.cap st.waiting st.active).2).length
      = (fill st.cap st.waiting st.active).2.length := by simp
  simp only [tick]
  omega

theorem tick_measure_lt (st : PoolState) (hinv : PoolInv st) (hcap : 1 ≤ st.cap)
    (hne : st.waiting ≠ [] ∨ st.active ≠ []) :
    poolMeasure (tick st) < poolMeasure st := by
  obtain ⟨hw, ha, hc⟩ := hinv
  have hsum := fill_sum st.cap st.waiting st.active
  have hpos := fill_pos st.cap st.waiting st.active hcap hne
  have hone : ∀ d ∈ (fill st.cap st.waiting st.active).2, 1 ≤ d := by
    intro d hd
    rcases fill_mem_active st.cap st.waiting st.active d hd with h | h
    · exact ha d h
    · exact hw d h
  have hsub := sum_map_sub_one (fill st.cap st.waiting st.active).2 hone
  have hfs := filter_nonzero_sum
    (List.map (fun d => d - 1) (fill st.cap st.waiting st.active).2)
  simp only [poolMeasure, tick]
  omega

theorem pool_runs_out (m : Nat) : ∀ st : PoolState, PoolInv st → 1 ≤ st.cap →
    poolMeasure st ≤ m →
    ∃ n, (tick^[n] st).waiting = [] ∧ (tick^[n] st).active = [] ∧
      (tick^[n] st).done = st.waiting.length + st.active.length + st.done := by
  induction m with
  | zero =>
    intro st hinv hcap hm
    have hw : st.waiting = [] := by
      cases hwq : st.waiting with
      | nil => rfl
      | cons j w =>
        exfalso
        have h1 := hinv.1 j (by rw [hwq]; exact List.mem_cons_self j w)
        have h2 : st.waiting.sum = j + w.sum := by rw [hwq]; simp
        simp only [poolMeasure] at hm
        omega
    have ha : st.active = [] := by
      cases haq : st.active with
      | nil => rfl
      | cons j w =>
        exfalso
        have h1 := hinv.2.1 j (by rw [haq]; exact List.mem_cons_self j w)
        have h2 : st.active.sum = j + w.sum := by rw [haq]; simp
        simp only [poolMeasure] at hm
        omega
    exact ⟨0, by simpa using hw, by simpa using ha, by simp [hw, ha]⟩
  | succ m ih =>
    intro st hinv hcap hm
    by_cases hne : st.waiting = [] ∧ st.active = []
    · exact ⟨0, by simpa using hne.1, by simpa using hne.2,
        by simp [hne.1, hne.2]⟩
    · have hlt := tick_measure_lt st hinv hcap (by tauto)
      obtain ⟨n, h1, h2, h3⟩ := ih (tick st) (tick_inv st hinv)
        (by rw [tick_cap_eq]; exact hcap) (by omega)
      have hcount := tick_count st
      refine ⟨n + 1, ?_, ?_, ?_⟩
      · rw [Function.iterate_succ_apply]; exact h1
      · rw [Function.iterate_succ_apply]; exact h2
      · rw [Function.iterate_succ_apply, h3]; omega

/-- C4: under the pool scheduling semantics, at every instant the number of
simultaneously active jobs never exceeds the configured concurrency cap,
and every submitted job eventually reaches a terminal state: the pool
drains until all jobs are done. The caps the code configures are positive
in both environments. -/
theorem pool_cap_and_termination (cap : Nat) (durations : List Nat)
    (hcap : 1 ≤ cap) (hdur : ∀ d ∈ durations, 1 ≤ d) :
    (∀ n, (tick^[n] (initPool cap durations)).active.length ≤ cap) ∧
    (∃ n, (tick^[n] (initPool cap durations)).waiting = [] ∧
      (tick^[n] (initPool cap durations)).active = [] ∧
      (tick^[n] (initPool cap durations)).done = durations.length) ∧
    (∀ b, 1 ≤ configuredConcurrency b) := by
  have hinv0 : PoolInv (initPool cap durations) :=
    ⟨by simpa [initPool] using hdur, by simp [initPool], by simp [initPool]⟩
  have hinvn : ∀ n, PoolInv (tick^[n] (initPool cap durations)) ∧
      (tick^[n] (initPool cap durations)).cap = cap := by
    intro n
    induction n with
    | zero => exact ⟨hinv0, rfl⟩
    | succ n ih =>
      rw [Function.iterate_succ_apply']
      exact ⟨tick_inv _ ih.1, by rw [tick_cap_eq]; exact ih.2⟩
  refine ⟨?_, ?_, ?_⟩
  · intro n
    have h := (hinvn n).1.2.2
    rw [(hinvn n).2] at h
    exact h
  · obtain ⟨n, h1, h2, h3⟩ := pool_runs_out (poolMeasure (initPool cap durations))
      (initPool cap durations) hinv0 hcap le_rfl
    exact ⟨n, h1, h2, by simpa [initPool] using h3⟩
  · intro b
    cases b <;> simp [configuredConcurrency]

/-- C4 witness: 10 jobs submitted with concurrency cap 2 all terminate, at
most 2 ever active at once. -/
theorem pool_cap_and_termination_witness :
    (∀ n, (tick^[n] (initPool 2 [1, 2, 1, 3, 1, 1, 2, 1, 1, 1])).active.length ≤ 2) ∧
    (∃ n, (tick^[n] (initPool 2 [1, 2, 1, 3, 1, 1, 2, 1, 1, 1])).waiting = [] ∧
      (tick^[n] (initPool 2 [1, 2, 1, 3, 1, 1, 2, 1, 1, 1])).active = [] ∧
      (tick^[n] (initPool 2 [1, 2, 1, 3, 1, 1, 2, 1, 1, 1])).done =
        [1, 2, 1, 3, 1, 1, 2, 1, 1, 1].length) ∧
    (∀ b, 1 ≤ configuredConcurrency b) :=
  pool_cap_and_termination 2 [1, 2, 1, 3, 1, 1, 2, 1, 1, 1] (by norm_num) (by decide)

end FileProc
